import Mathlib

/-!
Verification of the Hand-Writing (ZenScribe) repository's core glue code:
navigation state, text update, the retry wrapper, the insight cache, the
PCM audio decoder, and the pronunciation orchestration.

Each definition below is a shallow embedding of a function of the source:
  * `jsWhitespace`, `charsOf`, `trimList`   — the `\S` regex class and
    `String.prototype.trim` used by `App.tsx`;
  * `AppState`, `characters`, `handleUpdateText`, `handleNext`,
    `handlePrev`                             — `src/App.tsx` lines 87-132;
  * `withRetry`                              — `geminiService` `withRetry`;
  * `getCharacterInsights`, `lookupCache`    — `geminiService`
    `getCharacterInsights` with its module-level `insightsCache`;
  * `decodeAudioData`, `toInt16Pairs`        — `geminiService`
    `decodeAudioData` over an `Int16Array` view of the byte buffer;
  * `playPronunciation` (current and legacy) — `src/App.tsx` lines 134-172
    and the earlier `App` revision's `playPronunciation`;
  * `fetchInsightsResume`                    — the continuation of
    `fetchInsights` (`src/App.tsx` lines 94-96) after its `await`.

Strings are modelled as lists of characters (`split("")` on the BMP
characters this application handles), asynchronous effects as explicit
outcome parameters, and observable side effects as event traces.
-/

/-- The JavaScript whitespace class: the characters matched by `\s` (and
removed by `trim`), i.e. WhiteSpace ∪ LineTerminator of the ECMAScript
standard. `App.tsx` filters the active text with `/\S/.test(c)`. -/
def jsWhitespace (c : Char) : Bool :=
  c == ' ' || c == '\t' || c == '\n' || c.toNat == 0x000B || c.toNat == 0x000C ||
  c == '\r' || c.toNat == 0x00A0 || c.toNat == 0x1680 ||
  (0x2000 ≤ c.toNat && c.toNat ≤ 0x200A) ||
  c.toNat == 0x2028 || c.toNat == 0x2029 || c.toNat == 0x202F ||
  c.toNat == 0x205F || c.toNat == 0x3000 || c.toNat == 0xFEFF

/-- `text.split("").filter((c) => /\S/.test(c))` — `App.tsx` line 87. -/
def charsOf (text : List Char) : List Char :=
  text.filter (fun c => !jsWhitespace c)

/-- `String.prototype.trim`: remove leading and trailing whitespace. -/
def trimList (text : List Char) : List Char :=
  ((text.dropWhile jsWhitespace).reverse.dropWhile jsWhitespace).reverse

/-- The slice of the React component state of `App.tsx` that the text and
navigation operations read and write: `inputText`, `activeText`,
`currentIndex`. -/
structure AppState where
  inputText : List Char
  activeText : List Char
  currentIndex : Nat
deriving DecidableEq

/-- `const characters = activeText.split("").filter((c) => /\S/.test(c))`
(`App.tsx` line 87). -/
def characters (s : AppState) : List Char :=
  charsOf s.activeText

/-- `handleUpdateText` (`App.tsx` lines 105-113).  The converter argument
models `isSimplified ? tw2cn(inputText) : cn2tw(inputText)`: the OpenCC
script conversion applied to the input before it is stored.  The body is
guarded by `if (inputText.trim())` (truthy = non-empty after trimming);
when the guard holds it stores the converted text into both `activeText`
and `inputText` and resets `currentIndex` to 0. -/
def handleUpdateText (conv : List Char → List Char) (s : AppState) : AppState :=
  if trimList s.inputText ≠ [] then
    ⟨conv s.inputText, conv s.inputText, 0⟩
  else s

/-- `handleNext` (`App.tsx` lines 122-126): advance only while
`currentIndex < characters.length - 1`.  (For an empty sequence the
JavaScript comparison `0 < -1` is false, matching `0 < 0 - 1 = 0` on
truncated `Nat` subtraction.) -/
def handleNext (s : AppState) : AppState :=
  if s.currentIndex < (characters s).length - 1 then
    ⟨s.inputText, s.activeText, s.currentIndex + 1⟩
  else s

/-- `handlePrev` (`App.tsx` lines 128-132): retreat only while
`currentIndex > 0`. -/
def handlePrev (s : AppState) : AppState :=
  if 0 < s.currentIndex then
    ⟨s.inputText, s.activeText, s.currentIndex - 1⟩
  else s

/-- Modelled from the spec: the third-party OpenCC script-conversion
library (`cn2tw`), which is outside this repository.  Section 6 of the
design document describes it as a pure text-to-text conversion between
the Simplified and Traditional scripts; it is modelled here on a single
exemplary pair (the Simplified character 个 converts to the Traditional
character 個) and as the identity elsewhere. -/
def cn2twModel (text : List Char) : List Char :=
  text.map (fun c => if c = '个' then '個' else c)

/- ------------------------------------------------------------------ -/
/- The retry wrapper of geminiService (`withRetry`).                  -/
/- ------------------------------------------------------------------ -/

/-- A thrown JavaScript error as observed by `withRetry`.  The wrapper
only inspects `error.message?.includes("429")`, modelled by the `is429`
field; `tag` carries the error's identity so that "propagated unchanged"
is expressible. -/
structure Err where
  is429 : Bool
  tag : Nat
deriving DecidableEq

/-- The observable trace of one `withRetry` run: the value it returns (or
the error it re-throws), the backoff delays it awaited, in order, and how
many times it invoked the wrapped function. -/
structure RetryTrace (α : Type) where
  result : Except Err α
  delays : List Nat
  attempts : Nat

/-- `withRetry` of geminiService (part_001, lines 32-42), instrumented
with its trace.  `fn i` is the outcome of the i-th invocation of the
wrapped asynchronous function.  The source:

    try { return await fn(); } catch (error) {
      if (retries > 0 && error.message?.includes("429")) {
        await delay; return withRetry(fn, retries - 1, delay * 2);
      }
      throw error;
    }

The guard `retries > 0 && error.message?.includes("429")` is rendered by
splitting on `retries` first (0 = budget exhausted) and testing `is429`
inside the non-zero branch; both orders decide the same condition. -/
def withRetryAux {α : Type} (fn : Nat → Except Err α) :
    Nat → Nat → Nat → RetryTrace α
  | i, 0, _delay =>
    match fn i with
    | Except.ok a => ⟨Except.ok a, [], 1⟩
    | Except.error e => ⟨Except.error e, [], 1⟩
  | i, r + 1, delay =>
    match fn i with
    | Except.ok a => ⟨Except.ok a, [], 1⟩
    | Except.error e =>
      if e.is429 then
        let t := withRetryAux fn (i + 1) r (delay * 2)
        ⟨t.result, delay :: t.delays, t.attempts + 1⟩
      else ⟨Except.error e, [], 1⟩

/-- `withRetry fn retries delay`: the top-level call, starting at the
first invocation. -/
def withRetry {α : Type} (fn : Nat → Except Err α) (retries delay : Nat) :
    RetryTrace α :=
  withRetryAux fn 0 retries delay

/-- A concrete wrapped operation: rate-limited on its first two
invocations, successful with value 7 afterwards. -/
def fnW : Nat → Except Err Nat
  | 0 => Except.error ⟨true, 0⟩
  | 1 => Except.error ⟨true, 1⟩
  | _ => Except.ok 7

/-- The errors thrown by `fnW`'s failing invocations. -/
def esW : Nat → Err :=
  fun n => ⟨true, n⟩

/- ------------------------------------------------------------------ -/
/- The insight fetch and its module-level cache (`geminiService`).     -/
/- ------------------------------------------------------------------ -/

/-- `CharacterInfo` of `types.ts`.  Only `char` is non-optional in the
TypeScript interface; every other field may be absent at runtime because
`JSON.parse(...) as CharacterInfo` performs no runtime validation. -/
structure CharacterInfo where
  char : String
  meaning : Option String
  pinyin : Option String
  zhuyin : Option String
  radical : Option String
  strokeCount : Option Nat
  examples : Option (List String)
deriving DecidableEq

/-- Lookup in the module-level `insightsCache` record, keyed by the
character string. -/
def lookupCache : List (String × CharacterInfo) → String → Option CharacterInfo
  | [], _ => none
  | (k, v) :: rest, ch => if k = ch then some v else lookupCache rest ch

/-- How the guarded remote call inside `getCharacterInsights` resolves:
`netError` — the `withRetry`-wrapped request re-threw (network or HTTP
failure); `parseError` — the response text arrived but
`JSON.parse(response.text.trim())` threw; `response info` — `JSON.parse`
succeeded, yielding `info`.  The `as CharacterInfo` cast is erased at
runtime, so a parsed object reaches `info` even when schema-required
fields are absent. -/
inductive RemoteOutcome where
  | netError
  | parseError
  | response : CharacterInfo → RemoteOutcome
deriving DecidableEq

/-- The observable result of one `getCharacterInsights` call: the value
returned to the caller, the cache contents afterwards, whether a remote
request was dispatched, and whether the catch handler logged an error. -/
structure InsightsRun where
  value : Option CharacterInfo
  cache : List (String × CharacterInfo)
  networkCalled : Bool
  logged : Bool
deriving DecidableEq

/-- `getCharacterInsights` of geminiService (part_001, lines 44-83).
`apiKey` models `process.env.API_KEY` being non-empty.  The source:

    if (!process.env.API_KEY || !char) return null;
    if (insightsCache[char]) return insightsCache[char];
    try {
      const response = await withRetry(...);      // remote request
      const result = JSON.parse(response.text.trim()) as CharacterInfo;
      insightsCache[char] = result;
      return result;
    } catch (error) { console.error(...); return null; }
-/
def getCharacterInsights (apiKey : Bool) (cache : List (String × CharacterInfo))
    (ch : String) (remote : RemoteOutcome) : InsightsRun :=
  if apiKey = false ∨ ch = "" then ⟨none, cache, false, false⟩
  else
    match lookupCache cache ch with
    | some cached => ⟨some cached, cache, false, false⟩
    | none =>
      match remote with
      | RemoteOutcome.netError => ⟨none, cache, true, true⟩
      | RemoteOutcome.parseError => ⟨none, cache, true, true⟩
      | RemoteOutcome.response info => ⟨some info, (ch, info) :: cache, true, false⟩

/- ------------------------------------------------------------------ -/
/- The stale-response behaviour of `fetchInsights` (`App.tsx` 90-103). -/
/- ------------------------------------------------------------------ -/

/-- The slice of the `App.tsx` state that `fetchInsights` writes. -/
structure InsightView where
  insights : Option CharacterInfo
  isLoadingInsights : Bool
deriving DecidableEq

/-- The continuation of `fetchInsights` after its `await
getCharacterInsights(char, ...)` resolves (`App.tsx` lines 95-96):

    setInsights(data);
    setIsLoadingInsights(false);

The character the result was requested for (`_requestedChar`) is NOT
consulted: the resolved data is applied to the view unconditionally,
whatever character is active by the time the promise settles. -/
def fetchInsightsResume (_st : InsightView) (_requestedChar : String)
    (data : Option CharacterInfo) : InsightView :=
  ⟨data, false⟩

/-- Concrete insight record for the character 永. -/
def infoYong : CharacterInfo :=
  ⟨"永", some "eternal", some "yong3", some "ㄩㄥˇ", none, some 5, none⟩

/-- Concrete insight record for the character 和. -/
def infoHe : CharacterInfo :=
  ⟨"和", some "harmony", some "he2", some "ㄏㄜˊ", none, some 8, none⟩

/-- The out-of-order interleaving of the stale-response scenario: the
fetch for 永 is still in flight when the user navigates to 和; the fetch
for 和 resolves and renders first; then the older fetch for 永 resolves
last. -/
def staleScenario : InsightView :=
  fetchInsightsResume (fetchInsightsResume ⟨none, true⟩ "和" (some infoHe))
    "永" (some infoYong)

/-- A parseable remote response that omits the schema-required fields
`meaning`, `pinyin` and `zhuyin` (`JSON.parse` accepts it; the `as`
cast checks nothing). -/
def infoNoMeaning : CharacterInfo :=
  ⟨"永", none, none, none, none, none, none⟩

/- ------------------------------------------------------------------ -/
/- The PCM audio decoder (`decodeAudioData`, part_001 lines 134-151).  -/
/- ------------------------------------------------------------------ -/

/-- Reinterpret one unsigned 16-bit value as a signed 16-bit integer
(two's complement), as an `Int16Array` element does. -/
def toInt16 (n : Nat) : Int :=
  if n < 32768 then (n : Int) else (n : Int) - 65536

/-- The `Int16Array` view of a byte buffer: consecutive little-endian
byte pairs, low byte first. -/
def toInt16Pairs : List Nat → List Int
  | [] => []
  | [_] => []
  | lo :: hi :: rest => toInt16 (lo + 256 * hi) :: toInt16Pairs rest

/-- `decodeAudioData` of geminiService (part_001, lines 134-151): view
the bytes as interleaved signed 16-bit little-endian PCM, compute
`frameCount = dataInt16.length / numChannels`, and produce one
normalised channel buffer per channel with
`channelData[i] = dataInt16[i * numChannels + channel] / 32768.0`.
`sampleRate` is forwarded to `ctx.createBuffer` and does not affect the
sample values. -/
def decodeAudioData (data : List Nat) (_sampleRate numChannels : Nat) :
    List (List ℚ) :=
  let dataInt16 := toInt16Pairs data
  let frameCount := dataInt16.length / numChannels
  (List.range numChannels).map (fun channel =>
    (List.range frameCount).map (fun i =>
      ((dataInt16.getD (i * numChannels + channel) 0 : ℤ) : ℚ) / 32768))

/- ------------------------------------------------------------------ -/
/- Pronunciation orchestration (`playPronunciation`).                  -/
/- ------------------------------------------------------------------ -/

/-- How the `playCloudTTS` promise settles: it resolves once playback
has started successfully, and rejects on any internal failure (HTTP
error, malformed response, audio element error, `play()` rejection). -/
inductive CloudOutcome where
  | resolved
  | rejected
deriving DecidableEq

/-- Which callback the platform speech engine fires for a local
utterance: `onend` on completion, `onerror` on a synthesis error. -/
inductive LocalOutcome where
  | ended
  | errored
deriving DecidableEq

/-- The environment a single `playPronunciation` call runs against. -/
structure PronEnv where
  apiKey : Bool
  cloud : CloudOutcome
  localSig : LocalOutcome
deriving DecidableEq

/-- The observable events of a `playPronunciation` run, in order. -/
inductive PronEvent where
  | setSpeaking : Bool → PronEvent
  | alertShown
  | dispatchCloud
  | dispatchLocal
  | dispatchSpeech
  | warnShown
  | logError
deriving DecidableEq

/-- `playPronunciation` of the current `src/App.tsx` (lines 134-172) as
an event trace.  The guard is `if (isSpeaking || !currentChar) return;`;
the cloud branch fast-fails with an alert when no API key is configured,
otherwise awaits `playCloudTTS` inside the try/catch; the local branch
hands an utterance to `speechSynthesis` whose `onend`/`onerror` callback
clears the flag. -/
def playPronunciation (isSpeaking : Bool) (currentChar : Option Char)
    (useCloudVoice : Bool) (env : PronEnv) : List PronEvent :=
  if isSpeaking = true ∨ currentChar = none then []
  else
    PronEvent.setSpeaking true ::
      (if useCloudVoice then
        if env.apiKey = false then
          [PronEvent.alertShown, PronEvent.setSpeaking false]
        else
          match env.cloud with
          | CloudOutcome.resolved =>
            [PronEvent.dispatchCloud, PronEvent.setSpeaking false]
          | CloudOutcome.rejected =>
            [PronEvent.dispatchCloud, PronEvent.logError,
             PronEvent.setSpeaking false]
      else
        match env.localSig with
        | LocalOutcome.ended =>
          [PronEvent.dispatchLocal, PronEvent.setSpeaking false]
        | LocalOutcome.errored =>
          [PronEvent.dispatchLocal, PronEvent.logError,
           PronEvent.setSpeaking false])

namespace Legacy

/-- How the Gemini speech pipeline of the earlier `App` revision (the
file following `WritingBoard.tsx`, lines 196-230) behaves after
`generateSpeech` is awaited: `noAudio` — it resolved `null` (missing
key, remote failure, or no inline audio part); `audioReady` — base64
decode, PCM decode and `source.start(0)` all succeeded and `onended`
eventually fires; `pipelineError` — the decode/playback pipeline threw
and the catch handler runs. -/
inductive SpeechOutcome where
  | noAudio
  | audioReady
  | pipelineError
deriving DecidableEq

/-- `playPronunciation` of the earlier `App` revision as an event
trace.  Same guard; one backend (Gemini TTS + Web Audio playback). -/
def playPronunciation (isSpeaking : Bool) (currentChar : Option Char)
    (outcome : SpeechOutcome) : List PronEvent :=
  if isSpeaking = true ∨ currentChar = none then []
  else
    PronEvent.setSpeaking true ::
      PronEvent.dispatchSpeech ::
      (match outcome with
       | SpeechOutcome.noAudio =>
         [PronEvent.warnShown, PronEvent.setSpeaking false]
       | SpeechOutcome.audioReady =>
         [PronEvent.setSpeaking false]
       | SpeechOutcome.pipelineError =>
         [PronEvent.logError, PronEvent.setSpeaking false])

end Legacy

/-- How many times a trace executed `setIsSpeaking(false)`. -/
def clearCount (evs : List PronEvent) : Nat :=
  evs.countP (fun e => e == PronEvent.setSpeaking false)

/-- The value of the `isSpeaking` flag after a trace has run, starting
from `init`. -/
def finalSpeaking (init : Bool) (evs : List PronEvent) : Bool :=
  evs.foldl (fun s e =>
    match e with
    | PronEvent.setSpeaking b => b
    | _ => s) init

/- ------------------------------------------------------------------ -/
/- Helper lemmas about whitespace filtering and trimming.             -/
/- ------------------------------------------------------------------ -/

theorem dropWhile_all_of_forall {p : Char → Bool} :
    ∀ l : List Char, (∀ c ∈ l.dropWhile p, p c = true) → ∀ c ∈ l, p c = true := by
  intro l
  induction l with
  | nil => intro _ c hc; cases hc
  | cons a as ih =>
    intro h c hc
    by_cases ha : p a = true
    · rw [List.dropWhile_cons_of_pos ha] at h
      rcases List.mem_cons.mp hc with hc | hc
      · rwa [hc]
      · exact ih h c hc
    · rw [List.dropWhile_cons_of_neg ha] at h
      exact absurd (h a (by simp)) ha

theorem trimList_eq_nil_iff (l : List Char) :
    trimList l = [] ↔ ∀ c ∈ l, jsWhitespace c = true := by
  unfold trimList
  rw [List.reverse_eq_nil_iff, List.dropWhile_eq_nil_iff]
  constructor
  · intro h
    apply dropWhile_all_of_forall l
    intro c hc
    exact h c (List.mem_reverse.mpr hc)
  · intro h c hc
    exact h c ((List.dropWhile_sublist _).subset (List.mem_reverse.mp hc))

/- ------------------------------------------------------------------ -/
/- Claims C4, C5, C10: navigation and text update.                     -/
/- ------------------------------------------------------------------ -/

/-- C4: for every navigation state with a non-empty active sequence
satisfying the index invariant, `handleNext` and `handlePrev` keep
`currentIndex` inside `[0, length - 1]` (the lower bound holds by the
index being a natural number), and calling `handleNext` at the last
index or `handlePrev` at index 0 leaves the state unchanged. -/
theorem navigation_clamped (s : AppState) (_hne : characters s ≠ [])
    (hinv : s.currentIndex < (characters s).length) :
    (handleNext s).currentIndex < (characters (handleNext s)).length ∧
    (handlePrev s).currentIndex < (characters (handlePrev s)).length ∧
    (s.currentIndex = (characters s).length - 1 → handleNext s = s) ∧
    (s.currentIndex = 0 → handlePrev s = s) := by
  refine ⟨?_, ?_, ?_, ?_⟩
  · by_cases h : s.currentIndex < (characters s).length - 1
    · simp only [handleNext, if_pos h]
      show s.currentIndex + 1 < (characters s).length
      omega
    · simp only [handleNext, if_neg h]
      exact hinv
  · by_cases h : 0 < s.currentIndex
    · simp only [handlePrev, if_pos h]
      show s.currentIndex - 1 < (characters s).length
      omega
    · simp only [handlePrev, if_neg h]
      exact hinv
  · intro hlast
    have h : ¬ s.currentIndex < (characters s).length - 1 := by omega
    simp only [handleNext, if_neg h]
  · intro hzero
    have h : ¬ 0 < s.currentIndex := by omega
    simp only [handlePrev, if_neg h]

/-- Witness for C4 at the one-character state ⟨"永", "永", 0⟩. -/
theorem navigation_clamped_witness :
    (characters ⟨['永'], ['永'], 0⟩ ≠ [] ∧
      (AppState.mk ['永'] ['永'] 0).currentIndex <
        (characters ⟨['永'], ['永'], 0⟩).length) ∧
    ((handleNext ⟨['永'], ['永'], 0⟩).currentIndex <
        (characters (handleNext ⟨['永'], ['永'], 0⟩)).length ∧
      (handlePrev ⟨['永'], ['永'], 0⟩).currentIndex <
        (characters (handlePrev ⟨['永'], ['永'], 0⟩)).length ∧
      ((AppState.mk ['永'] ['永'] 0).currentIndex =
          (characters ⟨['永'], ['永'], 0⟩).length - 1 →
        handleNext ⟨['永'], ['永'], 0⟩ = ⟨['永'], ['永'], 0⟩) ∧
      ((AppState.mk ['永'] ['永'] 0).currentIndex = 0 →
        handlePrev ⟨['永'], ['永'], 0⟩ = ⟨['永'], ['永'], 0⟩)) :=
  ⟨⟨by decide, by decide⟩,
    navigation_clamped ⟨['永'], ['永'], 0⟩ (by decide) (by decide)⟩

/-- C5 (amended): for every input whose text contains at least one
non-whitespace character, after `handleUpdateText` the active character
sequence contains exactly the non-whitespace characters of the
SCRIPT-CONVERTED input, in their original order, and `currentIndex` is
reset to 0.  (The claim as frozen — the characters of the raw input, for
every input — fails; see `handleUpdateText_counterexample`.) -/
theorem handleUpdateText_spec (conv : List Char → List Char) (s : AppState)
    (h : ∃ c ∈ s.inputText, jsWhitespace c = false) :
    characters (handleUpdateText conv s) = charsOf (conv s.inputText) ∧
    (handleUpdateText conv s).currentIndex = 0 ∧
    (handleUpdateText conv s).activeText = conv s.inputText := by
  have hg : trimList s.inputText ≠ [] := by
    rw [Ne, trimList_eq_nil_iff]
    intro hall
    obtain ⟨c, hc, hcw⟩ := h
    rw [hall c hc] at hcw
    cases hcw
  unfold handleUpdateText
  rw [if_pos hg]
  exact ⟨rfl, rfl, rfl⟩

/-- Witness for C5 at the input "永 " with the modelled converter. -/
theorem handleUpdateText_spec_witness :
    (∃ c ∈ (['永', ' '] : List Char), jsWhitespace c = false) ∧
    (characters (handleUpdateText cn2twModel ⟨['永', ' '], [], 7⟩) =
        charsOf (cn2twModel ['永', ' ']) ∧
      (handleUpdateText cn2twModel ⟨['永', ' '], [], 7⟩).currentIndex = 0 ∧
      (handleUpdateText cn2twModel ⟨['永', ' '], [], 7⟩).activeText =
        cn2twModel ['永', ' ']) :=
  ⟨by decide, handleUpdateText_spec cn2twModel ⟨['永', ' '], [], 7⟩ (by decide)⟩

/-- Counterexample to C5 as frozen.  First conjunct: with the Simplified
input "个" the stored active sequence holds the converted character 個,
not the input's own character 个 (the update converts before storing).
Remaining conjuncts: for the whitespace-only input " " the update is not
applied at all, so the active sequence is not replaced and the position
is not reset to 0. -/
theorem handleUpdateText_counterexample :
    characters (handleUpdateText cn2twModel ⟨['个'], [], 0⟩) ≠ charsOf ['个'] ∧
    handleUpdateText cn2twModel ⟨[' '], ['永'], 3⟩ = ⟨[' '], ['永'], 3⟩ ∧
    (handleUpdateText cn2twModel ⟨[' '], ['永'], 3⟩).currentIndex ≠ 0 := by
  refine ⟨by decide, by decide, by decide⟩

/-- C10: calling the text-update operation with an input that is empty
or consists only of whitespace is a complete no-op: the whole state —
active text (hence the active sequence) and `currentIndex` — is
returned unchanged, for every converter. -/
theorem handleUpdateText_noop (conv : List Char → List Char) (s : AppState)
    (h : ∀ c ∈ s.inputText, jsWhitespace c = true) :
    handleUpdateText conv s = s := by
  have ht : trimList s.inputText = [] := (trimList_eq_nil_iff _).mpr h
  simp only [handleUpdateText, ne_eq, ht, not_true_eq_false, if_false]

/-- Witness for C10 at the whitespace-only input " \t". -/
theorem handleUpdateText_noop_witness :
    (∀ c ∈ ([' ', '\t'] : List Char), jsWhitespace c = true) ∧
    handleUpdateText cn2twModel ⟨[' ', '\t'], ['永'], 2⟩ =
      ⟨[' ', '\t'], ['永'], 2⟩ :=
  ⟨by decide, handleUpdateText_noop cn2twModel ⟨[' ', '\t'], ['永'], 2⟩ (by decide)⟩

/- ------------------------------------------------------------------ -/
/- Claim C3: the stale-response guard is absent.                       -/
/- ------------------------------------------------------------------ -/

/-- C3 fails on the code: `fetchInsightsResume` applies the resolved
data unconditionally — for every view state, requested character and
payload the insight shown becomes the payload (last conjunct).  In the
concrete interleaving `staleScenario` (fetch for 永 in flight, user
navigates to 和, 和 resolves and renders, then 永 resolves), the final
view shows the insight for 永 although the active character is 和: the
stale result overwrites the newer one instead of being discarded. -/
theorem fetchInsights_stale_overwrite :
    staleScenario.insights = some infoYong ∧
    infoYong ≠ infoHe ∧
    infoYong.char ≠ "和" ∧
    ∀ (st : InsightView) (c : String) (d : Option CharacterInfo),
      (fetchInsightsResume st c d).insights = d :=
  ⟨by decide, by decide, by decide, fun _ _ _ => rfl⟩

/- ------------------------------------------------------------------ -/
/- Claim C2: the retry wrapper.                                        -/
/- ------------------------------------------------------------------ -/

theorem withRetryAux_ok {α : Type} (fn : Nat → Except Err α)
    (i retries delay : Nat) (a : α) (h : fn i = Except.ok a) :
    withRetryAux fn i retries delay = ⟨Except.ok a, [], 1⟩ := by
  cases retries <;> simp [withRetryAux, h]

theorem withRetryAux_err_zero {α : Type} (fn : Nat → Except Err α)
    (i delay : Nat) (e : Err) (h : fn i = Except.error e) :
    withRetryAux fn i 0 delay = ⟨Except.error e, [], 1⟩ := by
  simp [withRetryAux, h]

theorem withRetryAux_err_stop {α : Type} (fn : Nat → Except Err α)
    (i retries delay : Nat) (e : Err) (h : fn i = Except.error e)
    (h429 : e.is429 = false) :
    withRetryAux fn i retries delay = ⟨Except.error e, [], 1⟩ := by
  cases retries <;> simp [withRetryAux, h, h429]

theorem withRetryAux_err_retry {α : Type} (fn : Nat → Except Err α)
    (i r delay : Nat) (e : Err) (h : fn i = Except.error e)
    (h429 : e.is429 = true) :
    withRetryAux fn i (r + 1) delay =
      ⟨(withRetryAux fn (i + 1) r (delay * 2)).result,
        delay :: (withRetryAux fn (i + 1) r (delay * 2)).delays,
        (withRetryAux fn (i + 1) r (delay * 2)).attempts + 1⟩ := by
  simp [withRetryAux, h, h429]

theorem withRetryAux_attempts_le {α : Type} (fn : Nat → Except Err α) :
    ∀ (retries i delay : Nat),
      (withRetryAux fn i retries delay).attempts ≤ retries + 1 := by
  intro retries
  induction retries with
  | zero =>
    intro i delay
    cases h : fn i with
    | ok a => rw [withRetryAux_ok fn i 0 delay a h]
    | error e => rw [withRetryAux_err_zero fn i delay e h]
  | succ r ih =>
    intro i delay
    cases h : fn i with
    | ok a =>
      rw [withRetryAux_ok fn i (r + 1) delay a h]
      show (1 : Nat) ≤ r + 1 + 1
      omega
    | error e =>
      cases h429 : e.is429 with
      | false =>
        rw [withRetryAux_err_stop fn i (r + 1) delay e h h429]
        show (1 : Nat) ≤ r + 1 + 1
        omega
      | true =>
        rw [withRetryAux_err_retry fn i r delay e h h429]
        have hrec := ih (i + 1) (delay * 2)
        show (withRetryAux fn (i + 1) r (delay * 2)).attempts + 1 ≤ r + 1 + 1
        omega

theorem geom_delays (delay k : Nat) :
    (List.range (k + 1)).map (fun j => delay * 2 ^ j) =
      delay :: (List.range k).map (fun j => delay * 2 * 2 ^ j) := by
  rw [List.range_succ_eq_map, List.map_cons, List.map_map]
  have hf : ((fun j => delay * 2 ^ j) ∘ Nat.succ) =
      (fun j => delay * 2 * 2 ^ j) := by
    funext j
    simp only [Function.comp, pow_succ]
    ring
  rw [hf, pow_zero, Nat.mul_one]

theorem withRetryAux_success {α : Type} (fn : Nat → Except Err α) (a : α) :
    ∀ (k i retries delay : Nat),
      (∀ m, m < k → ∃ e, fn (i + m) = Except.error e ∧ e.is429 = true) →
      fn (i + k) = Except.ok a → k ≤ retries →
      withRetryAux fn i retries delay =
        ⟨Except.ok a, (List.range k).map (fun j => delay * 2 ^ j), k + 1⟩ := by
  intro k
  induction k with
  | zero =>
    intro i retries delay _ hok _
    rw [Nat.add_zero] at hok
    rw [withRetryAux_ok fn i retries delay a hok]
    simp
  | succ k ih =>
    intro i retries delay hfail hok hk
    obtain ⟨e, he, he429⟩ := hfail 0 (Nat.succ_pos k)
    rw [Nat.add_zero] at he
    obtain ⟨r, rfl⟩ : ∃ r, retries = r + 1 := ⟨retries - 1, by omega⟩
    rw [withRetryAux_err_retry fn i r delay e he he429]
    have hfail' : ∀ m, m < k → ∃ e', fn (i + 1 + m) = Except.error e' ∧
        e'.is429 = true := by
      intro m hm
      have hidx : i + 1 + m = i + (m + 1) := by omega
      rw [hidx]
      exact hfail (m + 1) (by omega)
    have hok' : fn (i + 1 + k) = Except.ok a := by
      have hidx : i + 1 + k = i + (k + 1) := by omega
      rw [hidx]
      exact hok
    rw [ih (i + 1) r (delay * 2) hfail' hok' (by omega)]
    rw [geom_delays]

theorem withRetryAux_fail_stop {α : Type} (fn : Nat → Except Err α) (e : Err)
    (h429 : e.is429 = false) :
    ∀ (k i retries delay : Nat),
      (∀ m, m < k → ∃ e', fn (i + m) = Except.error e' ∧ e'.is429 = true) →
      fn (i + k) = Except.error e → k ≤ retries →
      withRetryAux fn i retries delay =
        ⟨Except.error e, (List.range k).map (fun j => delay * 2 ^ j), k + 1⟩ := by
  intro k
  induction k with
  | zero =>
    intro i retries delay _ herr _
    rw [Nat.add_zero] at herr
    rw [withRetryAux_err_stop fn i retries delay e herr h429]
    simp
  | succ k ih =>
    intro i retries delay hfail herr hk
    obtain ⟨e', he', he429'⟩ := hfail 0 (Nat.succ_pos k)
    rw [Nat.add_zero] at he'
    obtain ⟨r, rfl⟩ : ∃ r, retries = r + 1 := ⟨retries - 1, by omega⟩
    rw [withRetryAux_err_retry fn i r delay e' he' he429']
    have hfail' : ∀ m, m < k → ∃ e'', fn (i + 1 + m) = Except.error e'' ∧
        e''.is429 = true := by
      intro m hm
      have hidx : i + 1 + m = i + (m + 1) := by omega
      rw [hidx]
      exact hfail (m + 1) (by omega)
    have herr' : fn (i + 1 + k) = Except.error e := by
      have hidx : i + 1 + k = i + (k + 1) := by omega
      rw [hidx]
      exact herr
    rw [ih (i + 1) r (delay * 2) hfail' herr' (by omega)]
    rw [geom_delays]

theorem withRetryAux_exhaust {α : Type} (fn : Nat → Except Err α)
    (es : Nat → Err) :
    ∀ (retries i delay : Nat),
      (∀ m, m ≤ retries → fn (i + m) = Except.error (es (i + m)) ∧
        (es (i + m)).is429 = true) →
      withRetryAux fn i retries delay =
        ⟨Except.error (es (i + retries)),
          (List.range retries).map (fun j => delay * 2 ^ j), retries + 1⟩ := by
  intro retries
  induction retries with
  | zero =>
    intro i delay h
    obtain ⟨he, _⟩ := h 0 (Nat.le_refl 0)
    rw [Nat.add_zero] at he
    rw [withRetryAux_err_zero fn i delay (es (i + 0)) (by rwa [Nat.add_zero])]
    simp
  | succ r ih =>
    intro i delay h
    obtain ⟨he, he429⟩ := h 0 (Nat.zero_le _)
    rw [Nat.add_zero] at he he429
    rw [withRetryAux_err_retry fn i r delay (es i) he he429]
    have h' : ∀ m, m ≤ r → fn (i + 1 + m) = Except.error (es (i + 1 + m)) ∧
        (es (i + 1 + m)).is429 = true := by
      intro m hm
      have hidx : i + 1 + m = i + (m + 1) := by omega
      rw [hidx]
      exact h (m + 1) (by omega)
    rw [ih (i + 1) (delay * 2) h']
    have hidx : i + 1 + r = i + (r + 1) := by omega
    rw [hidx, geom_delays]

theorem withRetryAux_delays_len {α : Type} (fn : Nat → Except Err α) :
    ∀ (retries i delay : Nat),
      (withRetryAux fn i retries delay).delays.length + 1 =
        (withRetryAux fn i retries delay).attempts := by
  intro retries
  induction retries with
  | zero =>
    intro i delay
    cases h : fn i with
    | ok a =>
      rw [withRetryAux_ok fn i 0 delay a h]
      rfl
    | error e =>
      rw [withRetryAux_err_zero fn i delay e h]
      rfl
  | succ r ih =>
    intro i delay
    cases h : fn i with
    | ok a =>
      rw [withRetryAux_ok fn i (r + 1) delay a h]
      rfl
    | error e =>
      cases h429 : e.is429 with
      | false =>
        rw [withRetryAux_err_stop fn i (r + 1) delay e h h429]
        rfl
      | true =>
        rw [withRetryAux_err_retry fn i r delay e h h429]
        have hrec := ih (i + 1) (delay * 2)
        show (withRetryAux fn (i + 1) r (delay * 2)).delays.length + 1 + 1 =
          (withRetryAux fn (i + 1) r (delay * 2)).attempts + 1
        omega

/-- C2: the retry wrapper (1) invokes the operation at most `retries + 1`
times; (2) propagates a failure without the rate-limit signal unchanged,
as soon as it occurs, having retried only rate-limited failures before it
with delays `d, 2d, 4d, ...`; (3) once the budget is exhausted propagates
the final failure unchanged after exactly `retries + 1` attempts and
`retries` doubling delays; (4) if the operation fails with a rate-limit
signal exactly `k` times and then succeeds, with `retries ≥ k`, it
returns that success value after exactly `k` doubling delays and `k + 1`
attempts; and (5) unconditionally, every run waits exactly one delay per
attempt after the first (`delays.length = attempts - 1`). -/
theorem withRetry_spec {α : Type} (fn : Nat → Except Err α)
    (retries delay k : Nat) (a : α) (es : Nat → Err) (e : Err) :
    (withRetry fn retries delay).attempts ≤ retries + 1 ∧
    ((∀ m, m < k → fn m = Except.error (es m) ∧ (es m).is429 = true) →
      fn k = Except.error e → e.is429 = false → k ≤ retries →
      withRetry fn retries delay =
        ⟨Except.error e, (List.range k).map (fun j => delay * 2 ^ j), k + 1⟩) ∧
    ((∀ m, m ≤ retries → fn m = Except.error (es m) ∧ (es m).is429 = true) →
      withRetry fn retries delay =
        ⟨Except.error (es retries),
          (List.range retries).map (fun j => delay * 2 ^ j), retries + 1⟩) ∧
    ((∀ m, m < k → fn m = Except.error (es m) ∧ (es m).is429 = true) →
      fn k = Except.ok a → k ≤ retries →
      withRetry fn retries delay =
        ⟨Except.ok a, (List.range k).map (fun j => delay * 2 ^ j), k + 1⟩) ∧
    (withRetry fn retries delay).delays.length + 1 =
      (withRetry fn retries delay).attempts := by
  refine ⟨withRetryAux_attempts_le fn retries 0 delay, ?_, ?_, ?_,
    withRetryAux_delays_len fn retries 0 delay⟩
  · intro hfail herr h429 hk
    exact withRetryAux_fail_stop fn e h429 k 0 retries delay
      (fun m hm => ⟨es m, by rw [Nat.zero_add]; exact (hfail m hm).1,
        (hfail m hm).2⟩)
      (by rw [Nat.zero_add]; exact herr) hk
  · intro hall
    have h := withRetryAux_exhaust fn es retries 0 delay
      (fun m hm => by rw [Nat.zero_add]; exact hall m hm)
    rwa [Nat.zero_add] at h
  · intro hfail hok hk
    exact withRetryAux_success fn a k 0 retries delay
      (fun m hm => ⟨es m, by rw [Nat.zero_add]; exact (hfail m hm).1,
        (hfail m hm).2⟩)
      (by rw [Nat.zero_add]; exact hok) hk

/-- Witness for C2: `fnW` rate-limits twice then succeeds with 7; with a
budget of 3 retries and base delay 100, the wrapper returns 7 after
exactly the two delays 100 and 200 and three attempts. -/
theorem withRetry_spec_witness :
    ((∀ m, m < 2 → fnW m = Except.error (esW m) ∧ (esW m).is429 = true) ∧
      fnW 2 = Except.ok 7 ∧ 2 ≤ 3) ∧
    withRetry fnW 3 100 =
      ⟨Except.ok 7, (List.range 2).map (fun j => 100 * 2 ^ j), 2 + 1⟩ :=
  ⟨⟨by intro m hm; interval_cases m <;> exact ⟨rfl, rfl⟩, rfl, by decide⟩,
    (withRetry_spec fnW 3 100 2 7 esW ⟨false, 0⟩).2.2.2.1
      (by intro m hm; interval_cases m <;> exact ⟨rfl, rfl⟩) rfl (by decide)⟩

/- ------------------------------------------------------------------ -/
/- Claims C8, C9: the insight cache and the totality of the fetch.     -/
/- ------------------------------------------------------------------ -/

/-- C8: once a `CharacterInfo` value is stored for a character (which
presupposes a configured key and a non-empty character), every
subsequent `getCharacterInsights` call for that character returns the
identical stored value, leaves the cache unchanged, and dispatches no
network request — whatever the remote would have answered.  Moreover
(second conjunct) no call ever evicts or replaces an existing cache
entry: every previously stored key still maps to the same value
afterwards, so the cache grows monotonically. -/
theorem insightsCache_spec (apiKey : Bool)
    (cache : List (String × CharacterInfo)) (ch : String)
    (remote : RemoteOutcome) (v : CharacterInfo) :
    (apiKey = true → ch ≠ "" → lookupCache cache ch = some v →
      getCharacterInsights apiKey cache ch remote = ⟨some v, cache, false, false⟩) ∧
    (∀ k w, lookupCache cache k = some w →
      lookupCache (getCharacterInsights apiKey cache ch remote).cache k = some w) := by
  constructor
  · intro hkey hch hv
    subst hkey
    unfold getCharacterInsights
    rw [if_neg (by simp [hch])]
    rw [hv]
  · intro k w hw
    unfold getCharacterInsights
    by_cases hguard : apiKey = false ∨ ch = ""
    · rw [if_pos hguard]
      exact hw
    · rw [if_neg hguard]
      cases hc : lookupCache cache ch with
      | some cached => exact hw
      | none =>
        cases remote with
        | netError => exact hw
        | parseError => exact hw
        | response info =>
          show lookupCache ((ch, info) :: cache) k = some w
          unfold lookupCache
          by_cases hck : ch = k
          · subst hck
            rw [hc] at hw
            cases hw
          · rw [if_neg hck]
            exact hw

/-- Witness for C8: with 永 already cached, a further call returns the
cached record with no network dispatch and the cache intact, and the
entry for 永 survives the call. -/
theorem insightsCache_spec_witness :
    (true = true ∧ "永" ≠ "" ∧
      lookupCache [("永", infoYong)] "永" = some infoYong) ∧
    getCharacterInsights true [("永", infoYong)] "永" RemoteOutcome.netError =
      ⟨some infoYong, [("永", infoYong)], false, false⟩ :=
  ⟨⟨rfl, by decide, by decide⟩,
    (insightsCache_spec true [("永", infoYong)] "永" RemoteOutcome.netError
      infoYong).1 rfl (by decide) (by decide)⟩

/-- C9 (amended): `getCharacterInsights` is total and never throws; with
no configured credential, or an empty character, it returns an absent
result with no network call and no other effect; on a network failure or
a parse failure it logs and returns an absent result, the cache
unchanged.  A response that parses successfully is, however, stored and
returned as-is even when a schema-required field is absent: schema
enforcement is delegated to the remote service and is not re-checked
locally (the claim as frozen — local schema validation returning absent
— fails; see `getCharacterInsights_schema_counterexample`). -/
theorem getCharacterInsights_total (cache : List (String × CharacterInfo))
    (ch : String) (remote : RemoteOutcome) (apiKey : Bool)
    (info : CharacterInfo) :
    (getCharacterInsights false cache ch remote = ⟨none, cache, false, false⟩) ∧
    (getCharacterInsights apiKey cache "" remote = ⟨none, cache, false, false⟩) ∧
    (ch ≠ "" → lookupCache cache ch = none →
      getCharacterInsights true cache ch RemoteOutcome.netError =
          ⟨none, cache, true, true⟩ ∧
        getCharacterInsights true cache ch RemoteOutcome.parseError =
          ⟨none, cache, true, true⟩) ∧
    (ch ≠ "" → lookupCache cache ch = none →
      getCharacterInsights true cache ch (RemoteOutcome.response info) =
        ⟨some info, (ch, info) :: cache, true, false⟩) := by
  refine ⟨?_, ?_, ?_, ?_⟩
  · unfold getCharacterInsights
    rw [if_pos (Or.inl rfl)]
  · unfold getCharacterInsights
    rw [if_pos (Or.inr rfl)]
  · intro hch hc
    constructor <;>
      · unfold getCharacterInsights
        rw [if_neg (by simp [hch]), hc]
  · intro hch hc
    unfold getCharacterInsights
    rw [if_neg (by simp [hch]), hc]

/-- Counterexample to C9 as frozen: a remote response that parses but
omits the schema-required fields `meaning`, `pinyin` and `zhuyin` is not
treated as a failure — the call returns it (not an absent result) and
stores it in the cache (a side effect on what the claim calls a failure
path). -/
theorem getCharacterInsights_schema_counterexample :
    infoNoMeaning.meaning = none ∧ infoNoMeaning.pinyin = none ∧
    infoNoMeaning.zhuyin = none ∧
    (getCharacterInsights true [] "永"
        (RemoteOutcome.response infoNoMeaning)).value = some infoNoMeaning ∧
    (getCharacterInsights true [] "永"
        (RemoteOutcome.response infoNoMeaning)).cache = [("永", infoNoMeaning)] := by
  refine ⟨rfl, rfl, rfl, by decide, by decide⟩

/-- Witness for C9 at a concrete miss with a network failure. -/
theorem getCharacterInsights_total_witness :
    ("永" ≠ "" ∧ lookupCache [] "永" = none) ∧
    (getCharacterInsights true [] "永" RemoteOutcome.netError =
        ⟨none, [], true, true⟩ ∧
      getCharacterInsights true [] "永" RemoteOutcome.parseError =
        ⟨none, [], true, true⟩) :=
  ⟨⟨by decide, rfl⟩,
    (getCharacterInsights_total [] "永" RemoteOutcome.netError true
      infoNoMeaning).2.2.1 (by decide) rfl⟩

/- ------------------------------------------------------------------ -/
/- Claim C6: the PCM audio decoder.                                    -/
/- ------------------------------------------------------------------ -/

theorem toInt16Pairs_length : ∀ l : List Nat,
    (toInt16Pairs l).length = l.length / 2
  | [] => rfl
  | [_] => by simp [toInt16Pairs]
  | _lo :: _hi :: rest => by
    show (toInt16Pairs rest).length + 1 = (rest.length + 1 + 1) / 2
    rw [toInt16Pairs_length rest]
    omega

theorem toInt16Pairs_getD : ∀ (l : List Nat) (i : Nat), 2 * i + 1 < l.length →
    (toInt16Pairs l).getD i 0 =
      toInt16 (l.getD (2 * i) 0 + 256 * l.getD (2 * i + 1) 0)
  | [], i, h => by simp at h
  | [_], i, h => by
    simp only [List.length_cons, List.length_nil] at h
    omega
  | lo :: hi :: rest, 0, _ => rfl
  | lo :: hi :: rest, i + 1, h => by
    have h' : 2 * i + 1 < rest.length := by
      simp only [List.length_cons] at h
      omega
    have ih := toInt16Pairs_getD rest i h'
    have e1 : 2 * (i + 1) = 2 * i + 1 + 1 := by ring
    calc (toInt16Pairs (lo :: hi :: rest)).getD (i + 1) 0
        = (toInt16Pairs rest).getD i 0 := by
          show (toInt16 (lo + 256 * hi) :: toInt16Pairs rest).getD (i + 1) 0 = _
          rw [List.getD_cons_succ]
      _ = toInt16 (rest.getD (2 * i) 0 + 256 * rest.getD (2 * i + 1) 0) := ih
      _ = toInt16 ((lo :: hi :: rest).getD (2 * (i + 1)) 0 +
            256 * (lo :: hi :: rest).getD (2 * (i + 1) + 1) 0) := by
          rw [e1, List.getD_cons_succ, List.getD_cons_succ,
            List.getD_cons_succ, List.getD_cons_succ]

theorem toInt16_bounds (n : Nat) (h : n < 65536) :
    -32768 ≤ toInt16 n ∧ toInt16 n < 32768 := by
  unfold toInt16
  split <;> omega

theorem toInt16Pairs_mem_bounds : ∀ l : List Nat, (∀ b ∈ l, b < 256) →
    ∀ x ∈ toInt16Pairs l, -32768 ≤ x ∧ x < 32768
  | [], _, x, hx => by cases hx
  | [_], _, x, hx => by cases hx
  | lo :: hi :: rest, hb, x, hx => by
    rcases List.mem_cons.mp hx with hx | hx
    · subst hx
      apply toInt16_bounds
      have hlo : lo < 256 := hb lo (by simp)
      have hhi : hi < 256 := hb hi (by simp)
      omega
    · exact toInt16Pairs_mem_bounds rest
        (fun b hbm => hb b (by simp [hbm])) x hx

theorem getD_int_bounds (l : List Int) (idx : Nat)
    (hmem : ∀ x ∈ l, -32768 ≤ x ∧ x < 32768) :
    -32768 ≤ l.getD idx 0 ∧ l.getD idx 0 < 32768 := by
  by_cases h : idx < l.length
  · have hm : l.getD idx 0 ∈ l := by
      rw [List.getD_eq_getElem l 0 h]
      exact List.getElem_mem h
    exact hmem _ hm
  · rw [List.getD_eq_default l 0 (by omega)]
    omega

theorem map_range_getD {β : Type} (f : Nat → β) (d : β) (n j : Nat)
    (hj : j < n) :
    ((List.range n).map f).getD j d = f j := by
  rw [List.getD_eq_getElem _ _ (by simpa using hj)]
  simp

/-- C6: decoding a byte buffer of interleaved signed 16-bit little-endian
PCM whose 16-bit sample count `data.length / 2` is a multiple of
`numChannels` produces exactly `numChannels` channel buffers; each has
length `frameCount = (data.length / 2) / numChannels`; sample `i` of
channel `c` is the int16 value assembled little-endian from the byte pair
at interleaved position `i * numChannels + c`, divided by 32768; and
every produced value lies in the interval `[-1, 1)`. -/
theorem decodeAudioData_spec (data : List Nat) (sampleRate numChannels : Nat)
    (hb : ∀ b ∈ data, b < 256) (h2 : 2 ∣ data.length) (hnc : 0 < numChannels)
    (hdvd : numChannels ∣ data.length / 2) :
    (decodeAudioData data sampleRate numChannels).length = numChannels ∧
    (∀ ch ∈ decodeAudioData data sampleRate numChannels,
      ch.length = data.length / 2 / numChannels) ∧
    (∀ c i, c < numChannels → i < data.length / 2 / numChannels →
      ((decodeAudioData data sampleRate numChannels).getD c []).getD i 0 =
        ((toInt16 (data.getD (2 * (i * numChannels + c)) 0 +
            256 * data.getD (2 * (i * numChannels + c) + 1) 0) : Int) : ℚ) /
          32768) ∧
    (∀ ch ∈ decodeAudioData data sampleRate numChannels, ∀ v ∈ ch,
      -1 ≤ v ∧ v < 1) := by
  have hlen16 : (toInt16Pairs data).length = data.length / 2 :=
    toInt16Pairs_length data
  refine ⟨?_, ?_, ?_, ?_⟩
  · simp [decodeAudioData]
  · intro ch hch
    simp only [decodeAudioData, List.mem_map, List.mem_range] at hch
    obtain ⟨c, _, rfl⟩ := hch
    simp [hlen16]
  · intro c i hc hi
    have hi' : i < (toInt16Pairs data).length / numChannels := by
      rw [hlen16]
      exact hi
    show ((List.map _ (List.range numChannels)).getD c []).getD i 0 = _
    rw [map_range_getD _ _ numChannels c hc]
    rw [map_range_getD _ _ ((toInt16Pairs data).length / numChannels) i hi']
    have hidx : 2 * (i * numChannels + c) + 1 < data.length := by
      obtain ⟨q, hq⟩ := hdvd
      obtain ⟨p, hp⟩ := h2
      have hfc : data.length / 2 / numChannels = q := by
        rw [hq, Nat.mul_div_cancel_left q hnc]
      have hqi : i < q := by rw [hfc] at hi; exact hi
      have hlt : i * numChannels + c < q * numChannels := by
        calc i * numChannels + c < i * numChannels + numChannels := by omega
          _ = (i + 1) * numChannels := by ring
          _ ≤ q * numChannels := Nat.mul_le_mul_right numChannels (by omega)
      have hS : data.length = 2 * (data.length / 2) := by omega
      have : i * numChannels + c < data.length / 2 := by
        rw [hq, Nat.mul_comm numChannels q] at *
        omega
      omega
    rw [toInt16Pairs_getD data (i * numChannels + c) hidx]
  · intro ch hch v hv
    simp only [decodeAudioData, List.mem_map, List.mem_range] at hch
    obtain ⟨c, _, rfl⟩ := hch
    simp only [List.mem_map, List.mem_range] at hv
    obtain ⟨i, _, rfl⟩ := hv
    have hxb := getD_int_bounds (toInt16Pairs data) (i * numChannels + c)
      (toInt16Pairs_mem_bounds data hb)
    constructor
    · rw [le_div_iff₀ (by norm_num : (0 : ℚ) < 32768)]
      have h1 : (-32768 : ℚ) ≤ ((toInt16Pairs data).getD (i * numChannels + c) 0 : ℚ) := by
        exact_mod_cast hxb.1
      linarith
    · rw [div_lt_one (by norm_num : (0 : ℚ) < 32768)]
      exact_mod_cast hxb.2

/-- Witness for C6 at the stereo buffer holding the int16 samples
0, 16384, -16384, 32767 (little-endian bytes), checking the decoded
sample of channel 1, frame 1. -/
theorem decodeAudioData_spec_witness :
    ((∀ b ∈ ([0, 0, 0, 64, 0, 192, 255, 127] : List Nat), b < 256) ∧
      2 ∣ ([0, 0, 0, 64, 0, 192, 255, 127] : List Nat).length ∧ 0 < 2 ∧
      2 ∣ ([0, 0, 0, 64, 0, 192, 255, 127] : List Nat).length / 2) ∧
    ((decodeAudioData [0, 0, 0, 64, 0, 192, 255, 127] 24000 2).getD 1 []).getD 1 0 =
      ((toInt16 (([0, 0, 0, 64, 0, 192, 255, 127] : List Nat).getD
            (2 * (1 * 2 + 1)) 0 +
          256 * ([0, 0, 0, 64, 0, 192, 255, 127] : List Nat).getD
            (2 * (1 * 2 + 1) + 1) 0) : Int) : ℚ) / 32768 :=
  ⟨⟨by decide, by decide, by decide, by decide⟩,
    (decodeAudioData_spec [0, 0, 0, 64, 0, 192, 255, 127] 24000 2 (by decide)
      (by decide) (by decide) (by decide)).2.2.1 1 1 (by decide) (by decide)⟩

/- ------------------------------------------------------------------ -/
/- Claims C1, C7: pronunciation orchestration.                         -/
/- ------------------------------------------------------------------ -/

theorem playPronunciation_trace (c : Char) (useCloudVoice : Bool)
    (env : PronEnv) :
    clearCount (playPronunciation false (some c) useCloudVoice env) = 1 ∧
    finalSpeaking false (playPronunciation false (some c) useCloudVoice env) =
      false ∧
    (playPronunciation false (some c) useCloudVoice env).head? =
      some (PronEvent.setSpeaking true) := by
  obtain ⟨ak, cl, ls⟩ := env
  cases useCloudVoice <;> cases ak <;> cases cl <;> cases ls <;>
    simp [playPronunciation, clearCount, finalSpeaking]

theorem playPronunciationLegacy_trace (c : Char)
    (outcome : Legacy.SpeechOutcome) :
    clearCount (Legacy.playPronunciation false (some c) outcome) = 1 ∧
    finalSpeaking false (Legacy.playPronunciation false (some c) outcome) =
      false := by
  cases outcome <;>
    simp [Legacy.playPronunciation, clearCount, finalSpeaking]

/-- C1: whenever a `playPronunciation` call passes its guard (the flag is
down and a character is active), the in-flight flag is cleared exactly
once over the whole run — the synchronous body plus its completion and
error callbacks — and ends up false, on every exit path of every backend
branch: cloud success, missing-credential fast-fail, cloud
rejection, local completion, local synthesis error (current revision),
and no-audio, decode/playback failure, playback completion (legacy
Gemini revision). -/
theorem playPronunciation_clears_once (c : Char) (useCloudVoice : Bool)
    (env : PronEnv) (outcome : Legacy.SpeechOutcome) :
    clearCount (playPronunciation false (some c) useCloudVoice env) = 1 ∧
    finalSpeaking false (playPronunciation false (some c) useCloudVoice env) =
      false ∧
    clearCount (Legacy.playPronunciation false (some c) outcome) = 1 ∧
    finalSpeaking false (Legacy.playPronunciation false (some c) outcome) =
      false :=
  ⟨(playPronunciation_trace c useCloudVoice env).1,
    (playPronunciation_trace c useCloudVoice env).2.1,
    (playPronunciationLegacy_trace c outcome).1,
    (playPronunciationLegacy_trace c outcome).2⟩

/-- C7: `playPronunciation` is a strict no-op — it emits no event at
all, so no request is dispatched and no state changes — while a request
is already in flight or when no character is active; otherwise its first
action is raising the in-flight flag, so at most one request is ever in
flight; and because a completed run leaves the flag false, an immediate
subsequent call passes the guard and dispatches normally. -/
theorem playPronunciation_mutex (cOpt : Option Char) (c c' : Char)
    (useCloudVoice useCloudVoice' : Bool) (env env' : PronEnv) (b : Bool) :
    playPronunciation true cOpt useCloudVoice env = [] ∧
    playPronunciation b none useCloudVoice env = [] ∧
    (playPronunciation false (some c) useCloudVoice env).head? =
      some (PronEvent.setSpeaking true) ∧
    playPronunciation
        (finalSpeaking false (playPronunciation false (some c) useCloudVoice env))
        (some c') useCloudVoice' env' =
      playPronunciation false (some c') useCloudVoice' env' ∧
    (playPronunciation
        (finalSpeaking false (playPronunciation false (some c) useCloudVoice env))
        (some c') useCloudVoice' env').head? =
      some (PronEvent.setSpeaking true) := by
  refine ⟨?_, ?_, (playPronunciation_trace c useCloudVoice env).2.2, ?_, ?_⟩
  · simp [playPronunciation]
  · cases b <;> simp [playPronunciation]
  · rw [(playPronunciation_trace c useCloudVoice env).2.1]
  · rw [(playPronunciation_trace c useCloudVoice env).2.1]
    exact (playPronunciation_trace c' useCloudVoice' env').2.2
